import Mathlib

/-!
Verification of the knight static-analysis core (`program_state.cpp`,
`analysis_manager.hpp`, `analysis_context.cpp`) against its specification.

The embedding models:
- abstract domain values as an arbitrary type `α` together with a record
  `AbsDomOps α` of the virtual operations of `AbsDomBase`;
- the `DomValMap` (a C++ hash map from `DomID` to a shared value) as an
  association list with unique keys, with `lookupVal` for `find` and
  `setVal` for `operator[]` assignment;
- `ProgramState` as a record of its three maps;
- the hash-consed pool of `ProgramStateManager` as a list of slots;
- the `const_cast` aliasing in `ProgramState::normalize` with an explicit
  heap mapping addresses to domain values (`SharedVal` is a shared pointer,
  so copying the map copies addresses, not values).
-/

namespace Knight

/-- Domain identifiers (`DomID`): dense small integers. -/
abbrev DomID := Nat

/-- The virtual interface of `AbsDomBase`: the lattice operations every
registered abstract-domain value provides. `clone`/`clone_shared` are value
copies and are modelled by the value itself. -/
structure AbsDomOps (α : Type) where
  leq : α → α → Bool
  equals : α → α → Bool
  is_bottom : α → Bool
  is_top : α → Bool
  join_with : α → α → α
  join_with_at_loop_head : α → α → α
  join_consecutive_iter_with : α → α → α
  widen_with : α → α → α
  meet_with : α → α → α
  narrow_with : α → α → α
  normalize : α → α

/-- A `DomID → value` map (`DomValMap`), as an association list. -/
abbrev DomValMap (α : Type) := List (DomID × α)

/-- Map lookup (`m_dom_val.find(id)`): first entry with the given key. -/
def lookupVal {α : Type} : DomValMap α → DomID → Option α
  | [], _ => none
  | (k', v) :: rest, k => if k' = k then some v else lookupVal rest k

/-- Map assignment (`map[id] = v`): overwrite the entry if the key is
present, otherwise append it. -/
def setVal {α : Type} : DomValMap α → DomID → α → DomValMap α
  | [], k, v => [(k, v)]
  | (k', v') :: rest, k, v =>
    if k' = k then (k, v) :: rest else (k', v') :: setVal rest k v

/-- The hash-map invariant: keys are pairwise distinct. -/
def NodupKeys {α : Type} (m : DomValMap α) : Prop :=
  (m.map Prod.fst).Nodup

instance instDecidableNodupKeys {α : Type} (m : DomValMap α) :
    Decidable (NodupKeys m) :=
  inferInstanceAs (Decidable ((m.map Prod.fst).Nodup))

/-- `ProgramState`: the immutable record of the three maps. The manager and
region-manager pointers are passed explicitly where needed. Region, statement
and s-expression references are opaque handles, modelled as naturals. -/
structure ProgramState (α : Type) where
  dom_val : DomValMap α
  region_sexpr : List (Nat × Nat)
  stmt_sexpr : List (Nat × Nat)
deriving DecidableEq

/-- `ProgramState::is_bottom`: `llvm::any_of` the map, value is bottom. -/
def ProgramState.is_bottom {α : Type} (D : AbsDomOps α) (s : ProgramState α) : Bool :=
  s.dom_val.any (fun p => D.is_bottom p.2)

/-- `ProgramState::is_top`: `llvm::all_of` the map, value is top. -/
def ProgramState.is_top {α : Type} (D : AbsDomOps α) (s : ProgramState α) : Bool :=
  s.dom_val.all (fun p => D.is_top p.2)

/-- `ProgramState::equals`: `llvm::all_of` over the receiver's `m_dom_val`;
each key must be found in `other` with an `equals` value. Keys of `other`
that are absent from the receiver are never examined. -/
def ProgramState.equals {α : Type} (D : AbsDomOps α)
    (self other : ProgramState α) : Bool :=
  self.dom_val.all (fun p =>
    match lookupVal other.dom_val p.1 with
    | none => false
    | some w => D.equals p.2 w)

/-- First loop of `ProgramState::leq`: walk the receiver's entries, record
each id into `this_key_set`, and thread the `need_to_check_other` flag.
Returns `none` on an early `return false`, otherwise the final key set and
flag. -/
def leqAux {α : Type} (D : AbsDomOps α) (other : DomValMap α) :
    DomValMap α → List DomID → Bool → Option (List DomID × Bool)
  | [], keys, need => some (keys, need)
  | (id, v) :: rest, keys, need =>
    match lookupVal other id with
    | none =>
      if D.is_bottom v then leqAux D other rest (id :: keys) true else none
    | some w =>
      if D.leq v w then leqAux D other rest (id :: keys) need else none

/-- `ProgramState::leq`: `need_to_check_other` starts as a size comparison;
the first loop may fail or raise the flag; the second loop runs only when
the flag is set and requires every `other` entry outside `this_key_set` to
be top. -/
def ProgramState.leq {α : Type} (D : AbsDomOps α)
    (self other : ProgramState α) : Bool :=
  match leqAux D other.dom_val self.dom_val []
      (decide (other.dom_val.length ≠ self.dom_val.length)) with
  | none => false
  | some (keys, need) =>
    if need then
      other.dom_val.all (fun p => decide (p.1 ∈ keys) || D.is_top p.2)
    else true

/-- Body of the `UNION_MAP(OP)` macro: iterate `other`'s map into a fresh
`new_map`; a key absent from the receiver gets `clone_shared` of `other`'s
value, a key present in both gets the receiver's clone combined by `OP`.
The receiver's own keys are consulted but never inserted on their own. -/
def unionLoop {α : Type} (op : α → α → α) (selfMap : DomValMap α) :
    DomValMap α → DomValMap α → DomValMap α
  | [], new_map => new_map
  | (id, w) :: rest, new_map =>
    match lookupVal selfMap id with
    | none => unionLoop op selfMap rest (setVal new_map id w)
    | some v => unionLoop op selfMap rest (setVal new_map id (op v w))

/-- The `UNION_MAP(OP)` macro result: the fresh map together with the
receiver's `region_sexpr` and `stmt_sexpr` (the intern call
`get_persistent_state_with_copy_and_dom_val_map` copies them from the
receiver). -/
def UNION_MAP {α : Type} (op : α → α → α)
    (self other : ProgramState α) : ProgramState α :=
  { dom_val := unionLoop op self.dom_val other.dom_val []
    region_sexpr := self.region_sexpr
    stmt_sexpr := self.stmt_sexpr }

/-- Body of the `INTERSECT_MAP(OP)` macro: keys present in both maps are
combined; all other keys are dropped. -/
def intersectLoop {α : Type} (op : α → α → α) (selfMap : DomValMap α) :
    DomValMap α → DomValMap α → DomValMap α
  | [], acc => acc
  | (id, w) :: rest, acc =>
    match lookupVal selfMap id with
    | none => intersectLoop op selfMap rest acc
    | some v => intersectLoop op selfMap rest (setVal acc id (op v w))

/-- The `INTERSECT_MAP(OP)` macro result. -/
def INTERSECT_MAP {α : Type} (op : α → α → α)
    (self other : ProgramState α) : ProgramState α :=
  { dom_val := intersectLoop op self.dom_val other.dom_val []
    region_sexpr := self.region_sexpr
    stmt_sexpr := self.stmt_sexpr }

/-- `ProgramState::join` = `UNION_MAP(join_with)`. -/
def ProgramState.join {α : Type} (D : AbsDomOps α)
    (self other : ProgramState α) : ProgramState α :=
  UNION_MAP D.join_with self other

/-- `ProgramState::join_at_loop_head` = `UNION_MAP(join_with_at_loop_head)`. -/
def ProgramState.join_at_loop_head {α : Type} (D : AbsDomOps α)
    (self other : ProgramState α) : ProgramState α :=
  UNION_MAP D.join_with_at_loop_head self other

/-- `ProgramState::join_consecutive_iter` =
`UNION_MAP(join_consecutive_iter_with)`. -/
def ProgramState.join_consecutive_iter {α : Type} (D : AbsDomOps α)
    (self other : ProgramState α) : ProgramState α :=
  UNION_MAP D.join_consecutive_iter_with self other

/-- `ProgramState::widen` = `UNION_MAP(widen_with)`. -/
def ProgramState.widen {α : Type} (D : AbsDomOps α)
    (self other : ProgramState α) : ProgramState α :=
  UNION_MAP D.widen_with self other

/-- `ProgramState::meet` = `INTERSECT_MAP(meet_with)`. -/
def ProgramState.meet {α : Type} (D : AbsDomOps α)
    (self other : ProgramState α) : ProgramState α :=
  INTERSECT_MAP D.meet_with self other

/-- `ProgramState::narrow` = `INTERSECT_MAP(narrow_with)`. -/
def ProgramState.narrow {α : Type} (D : AbsDomOps α)
    (self other : ProgramState α) : ProgramState α :=
  INTERSECT_MAP D.narrow_with self other

/-- The registry side of the analysis manager consulted by
`ProgramStateManager::get_default_state` / `get_bottom_state`: the required
analyses, the domains registered under each, and the optional factory
functions for default and bottom values. -/
structure DomainRegistry (α : Type) where
  required_analyses : List Nat
  analysis_domains : Nat → List DomID
  domain_default_fn : DomID → Option α
  domain_bottom_fn : DomID → Option α

/-- Inner loop body of `get_default_state` / `get_bottom_state`: if the
factory map holds a function for the domain id, insert its value
(`dom_val[dom_id] = (*fn)()`), else leave the map alone. -/
def insFactory {α : Type} (factory : DomID → Option α)
    (acc : DomValMap α) (did : DomID) : DomValMap α :=
  match factory did with
  | some v => setVal acc did v
  | none => acc

/-- The double loop shared by `get_default_state` and `get_bottom_state`:
for each required analysis, for each of its registered domains, if the
given factory map holds a function for the domain, insert its value. -/
def buildDomVal {α : Type} (reg : DomainRegistry α)
    (factory : DomID → Option α) : DomValMap α :=
  reg.required_analyses.foldl
    (fun acc aid => (reg.analysis_domains aid).foldl (insFactory factory) acc)
    []

/-- `ProgramStateManager::get_default_state`: `default_val` factories, empty
auxiliary maps. (The intern step is modelled separately by
`get_persistent_state`.) -/
def get_default_state {α : Type} (reg : DomainRegistry α) : ProgramState α :=
  { dom_val := buildDomVal reg reg.domain_default_fn
    region_sexpr := []
    stmt_sexpr := [] }

/-- `ProgramStateManager::get_bottom_state`: `bottom_val` factories, empty
auxiliary maps. -/
def get_bottom_state {α : Type} (reg : DomainRegistry α) : ProgramState α :=
  { dom_val := buildDomVal reg reg.domain_bottom_fn
    region_sexpr := []
    stmt_sexpr := [] }

/-- `ProgramState::set_to_bottom`: delegates to the manager's
`get_bottom_state`; the receiver plays no role. -/
def ProgramState.set_to_bottom {α : Type} (_self : ProgramState α)
    (reg : DomainRegistry α) : ProgramState α :=
  get_bottom_state reg

/-- `ProgramState::set_to_top`: delegates to the manager's
`get_default_state`; the receiver plays no role. -/
def ProgramState.set_to_top {α : Type} (_self : ProgramState α)
    (reg : DomainRegistry α) : ProgramState α :=
  get_default_state reg

/-- Map equality ignoring entry order: each entry of one map is found,
with the same value, in the other. Used by the fold-set profile. -/
def mapEquiv {α : Type} [DecidableEq α]
    (m1 m2 : List (Nat × α)) : Bool :=
  m1.all (fun p => lookupVal m2 p.1 = some p.2) &&
    m2.all (fun p => lookupVal m1 p.1 = some p.2)

/-- Modelled from the spec: `ProgramState::Profile` is declared in
`program_state.hpp`, which is not part of the sources given; per the spec
the fold-set key combines, order-independently, the `dom_val` entries (by
value hash), the `region_sexpr` entries and the `stmt_sexpr` entries, and
fold-set equality "must not observe map iteration order". Two states are
profile-equal iff their three maps agree as maps. -/
def stateEquiv {α : Type} [DecidableEq α]
    (s t : ProgramState α) : Bool :=
  mapEquiv s.dom_val t.dom_val &&
    mapEquiv s.region_sexpr t.region_sexpr &&
    mapEquiv s.stmt_sexpr t.stmt_sexpr

/-- The pool side of `ProgramStateManager`: the fold set of interned states
(slot number paired with contents), the free list of reclaimed slots, and
the arena's bump counter. -/
structure StateManager (α : Type) where
  pool : List (Nat × ProgramState α)
  free_states : List Nat
  arena_next : Nat

/-- `ProgramStateManager::get_persistent_state`: profile the candidate; if
an equivalent state is pooled return its slot, else take a slot from the
free list when non-empty, otherwise allocate a fresh slot from the arena,
move the candidate in and insert it into the fold set. Returns the slot of
the resulting interned state and the updated manager. -/
def get_persistent_state {α : Type} [DecidableEq α]
    (mgr : StateManager α) (state : ProgramState α) :
    Nat × StateManager α :=
  match mgr.pool.find? (fun p => stateEquiv p.2 state) with
  | some existed => (existed.1, mgr)
  | none =>
    match mgr.free_states with
    | slot :: rest =>
      (slot, { pool := (slot, state) :: mgr.pool
               free_states := rest
               arena_next := mgr.arena_next })
    | [] =>
      (mgr.arena_next, { pool := (mgr.arena_next, state) :: mgr.pool
                         free_states := []
                         arena_next := mgr.arena_next + 1 })

/-- A program state as laid out in memory: `SharedVal` is a shared pointer,
so `m_dom_val` maps a `DomID` to the address of a heap cell holding the
domain value. Copying the map copies addresses; the pointed-to cells are
shared with the original. -/
structure ProgramStateH where
  dom_val : List (DomID × Nat)
deriving DecidableEq

/-- One heap cell per address. -/
abbrev Heap (α : Type) := Nat → α

/-- The loop of `ProgramState::normalize`: for every entry of the copied
map, `const_cast` the shared pointee and normalize it in place. The heap is
updated at every address the map mentions. -/
def normalizeHeap {α : Type} (D : AbsDomOps α)
    (entries : List (DomID × Nat)) (h : Heap α) : Heap α :=
  entries.foldl (fun hp p => Function.update hp p.2 (D.normalize (hp p.2))) h

/-- `ProgramState::normalize` at the memory level: copy `m_dom_val` (the
addresses, not the cells), normalize each pointed-to cell in place, and
return the new state (same addresses) together with the heap after the
call. -/
def ProgramStateH.normalize {α : Type} (D : AbsDomOps α)
    (s : ProgramStateH) (h : Heap α) : ProgramStateH × Heap α :=
  ({ dom_val := s.dom_val }, normalizeHeap D s.dom_val h)

/-- The value a state observes for a domain id, reading through the heap. -/
def ProgramStateH.readVal {α : Type} (s : ProgramStateH) (h : Heap α)
    (id : DomID) : Option α :=
  (lookupVal s.dom_val id).map h

/-- Declaration kinds as `ProgramState::get_region` distinguishes them:
`clang::VarDecl` against every other kind (named by `getDeclKindName`). -/
inductive DeclKind where
  | varDecl
  | functionDecl
  | fieldDecl
  | enumDecl
deriving DecidableEq

/-- An opaque declaration reference: its clang kind and an identity. -/
structure DeclRef where
  kind : DeclKind
  name : Nat
deriving DecidableEq

/-- `llvm::isa<clang::VarDecl>(decl)`. -/
def DeclRef.isVarDecl (d : DeclRef) : Bool :=
  d.kind = DeclKind.varDecl

/-- `clang::Decl::getDeclKindName`. -/
def DeclKind.declKindName : DeclKind → String
  | DeclKind.varDecl => "Var"
  | DeclKind.functionDecl => "Function"
  | DeclKind.fieldDecl => "Field"
  | DeclKind.enumDecl => "Enum"

/-- Modelled from the spec: `RegionManager::get_region(decl, frame)` lives
in `dfa/region/region.hpp`, which is not among the sources given; per the
spec it is a pure lookup returning a region reference or absent. It is
modelled as an uninterpreted lookup function over variable declarations and
stack frames (both opaque handles). -/
abbrev RegionManager := Nat → Nat → Option Nat

/-- `ProgramState::get_region`: a `VarDecl` is delegated to the region
manager; any other declaration kind is logged to `llvm::errs()` and yields
`std::nullopt`. The result carries the region (or absent) and the error
lines written. -/
def ProgramState.get_region (rm : RegionManager) (decl : DeclRef)
    (frame : Nat) : Option Nat × List String :=
  if decl.isVarDecl then
    (rm decl.name frame, [])
  else
    (none, ["unhandled decl type: " ++ decl.kind.declKindName])

/-- One registered statement callback: the owning analysis kind, the
callback handle, the match-predicate handle and the visit kind
(`internal::StmtAnalysisInfo` plus the `AnalysisCallBack` tag). Handles are
opaque naturals. -/
structure StmtAnalysisInfo where
  anz_kind : Nat
  anz_cb : Nat
  match_cb : Nat
  visit_kind : Nat
deriving DecidableEq

/-- The slice of `AnalysisManager` state touched by `register_analysis`:
the registered-ID set `m_analyses`, the three callback tables, and a count
of analysis instances constructed so far. -/
structure AnalysisManager where
  m_analyses : List Nat
  m_begin_function_analyses : List (Nat × Nat)
  m_end_function_analyses : List (Nat × Nat)
  m_stmt_analyses : List StmtAnalysisInfo
deriving DecidableEq

/-- What one analysis kind's `register_callback` registers: the callback
entries it pushes into the begin-function, end-function and statement
tables. -/
structure CallbackRegistration where
  begin_fn : List (Nat × Nat)
  end_fn : List (Nat × Nat)
  stmt : List StmtAnalysisInfo

/-- Modelled from the spec: `register_for_begin_function`,
`register_for_end_function` and `register_for_stmt` are declared in
`analysis_manager.hpp` but their bodies are in a source file not given;
per the spec each callback table "is a sequence of such callables iterated
in insertion order", so registration appends to the table. Running a
registration appends its entries to the three tables. -/
def applyRegistration (m : AnalysisManager)
    (regs : CallbackRegistration) : AnalysisManager :=
  { m with
    m_begin_function_analyses := m.m_begin_function_analyses ++ regs.begin_fn
    m_end_function_analyses := m.m_end_function_analyses ++ regs.end_fn
    m_stmt_analyses := m.m_stmt_analyses ++ regs.stmt }

/-- `AnalysisManager::register_analysis<ANALYSIS>`: if the kind's ID is
already in `m_analyses`, print a warning (returned as the message list) and
leave the set alone, else insert it; then unconditionally construct a new
analysis instance and run `ANALYSIS::register_callback` on it. Returns the
updated manager, the number of instances constructed by the call, and the
warnings emitted. -/
def register_analysis (m : AnalysisManager) (id : Nat)
    (regs : CallbackRegistration) :
    AnalysisManager × Nat × List String :=
  let warned := id ∈ m.m_analyses
  let msgs := if warned then ["analysis is already registered."] else []
  let m1 := if warned then m else { m with m_analyses := id :: m.m_analyses }
  (applyRegistration m1 regs, 1, msgs)

/-! ## Basic lemmas about the map operations -/

theorem lookupVal_eq_none_iff {α : Type} (m : DomValMap α) (k : DomID) :
    lookupVal m k = none ↔ k ∉ m.map Prod.fst := by
  induction m with
  | nil => simp [lookupVal]
  | cons p rest ih =>
    obtain ⟨k', v⟩ := p
    by_cases hk : k' = k
    · subst hk
      simp [lookupVal]
    · simp [lookupVal, hk, ih, Ne.symm hk]

theorem lookupVal_ne_none_iff {α : Type} (m : DomValMap α) (k : DomID) :
    lookupVal m k ≠ none ↔ k ∈ m.map Prod.fst := by
  rw [Ne, lookupVal_eq_none_iff, not_not]

theorem lookupVal_setVal {α : Type} (m : DomValMap α) (k : DomID) (v : α)
    (k' : DomID) :
    lookupVal (setVal m k v) k' =
      if k = k' then some v else lookupVal m k' := by
  induction m with
  | nil => simp [setVal, lookupVal]
  | cons p rest ih =>
    obtain ⟨k1, v1⟩ := p
    by_cases h1 : k1 = k
    · subst h1
      by_cases h2 : k1 = k'
      · subst h2; simp [setVal, lookupVal]
      · simp [setVal, lookupVal, h2]
    · by_cases h2 : k1 = k'
      · subst h2
        have hk : k ≠ k1 := fun h => h1 h.symm
        simp [setVal, lookupVal, h1, hk]
      · simp [setVal, lookupVal, h1, h2, ih]

/-! ## A concrete abstract domain for witnesses

A two-point lattice with redundant representations: a natural `n`
represents bottom when `n = 0` and top otherwise; `normalize` canonicalizes
to `min n 1`. All contract laws (leq partial order, equals as semantic
equality, normalize idempotent and meaning-preserving) hold. -/

def ExD : AbsDomOps Nat where
  leq := fun a b => decide (min a 1 ≤ min b 1)
  equals := fun a b => decide (min a 1 = min b 1)
  is_bottom := fun a => decide (min a 1 = 0)
  is_top := fun a => decide (min a 1 = 1)
  join_with := fun a b => max a b
  join_with_at_loop_head := fun a b => max a b
  join_consecutive_iter_with := fun a b => max a b
  widen_with := fun a b => max a b
  meet_with := fun a b => min a b
  narrow_with := fun a b => min a b
  normalize := fun a => min a 1

/-- The empty program state (no domain values, no auxiliary entries). -/
def sEmpty : ProgramState Nat := ⟨[], [], []⟩

/-- A state carrying just domain 0 with (top) value 2. -/
def sOne : ProgramState Nat := ⟨[(0, 2)], [], []⟩

/-- A state carrying just domain 0 with (top) value 1. -/
def sA : ProgramState Nat := ⟨[(0, 1)], [], []⟩

/-! ## C8: is_bottom / is_top characterization -/

/-- C8: `is_bottom` is true iff at least one `dom_val` entry is bottom and
`is_top` is true iff every entry is top; on an empty `dom_val`, `is_bottom`
is false and `is_top` is true. -/
theorem is_bottom_is_top_spec {α : Type} (D : AbsDomOps α)
    (s : ProgramState α) :
    (ProgramState.is_bottom D s = true ↔
      ∃ p ∈ s.dom_val, D.is_bottom p.2 = true) ∧
    (ProgramState.is_top D s = true ↔
      ∀ p ∈ s.dom_val, D.is_top p.2 = true) ∧
    (∀ r st, ProgramState.is_bottom D ⟨[], r, st⟩ = false) ∧
    (∀ r st, ProgramState.is_top D ⟨[], r, st⟩ = true) := by
  refine ⟨?_, ?_, ?_, ?_⟩
  · simp [ProgramState.is_bottom, List.any_eq_true]
  · simp [ProgramState.is_top, List.all_eq_true]
  · intro r st; simp [ProgramState.is_bottom]
  · intro r st; simp [ProgramState.is_top]

/-! ## C3: equals -/

/-- C3 counterexample: `equals` only iterates the receiver's entries, so a
state with empty `dom_val` compares equal to a state that carries a key the
receiver lacks — the claim requires `equals` to return false whenever the
other state has an extra key. -/
theorem equals_true_with_extra_other_key :
    ProgramState.equals ExD sEmpty sOne = true ∧
      lookupVal sEmpty.dom_val 0 = none ∧
      lookupVal sOne.dom_val 0 = some 2 := by
  decide

/-- C3 amended: `equals` returns true iff every entry of the receiver's
`dom_val` has a matching key in the other state whose value compares
`equals`; keys present only in the other state are never examined, so the
key sets need not coincide. -/
theorem equals_iff_receiver_keys {α : Type} (D : AbsDomOps α)
    (a b : ProgramState α) :
    ProgramState.equals D a b = true ↔
      ∀ p ∈ a.dom_val, ∃ w,
        lookupVal b.dom_val p.1 = some w ∧ D.equals p.2 w = true := by
  unfold ProgramState.equals
  rw [List.all_eq_true]
  constructor
  · intro h p hp
    have hh := h p hp
    cases hl : lookupVal b.dom_val p.1 with
    | none => rw [hl] at hh; simp at hh
    | some w =>
      rw [hl] at hh
      exact ⟨w, rfl, hh⟩
  · intro h p hp
    obtain ⟨w, hl, he⟩ := h p hp
    rw [hl]
    exact he

/-! ## C6: lattice operations preserve the receiver's auxiliary maps -/

/-- C6: every lattice operation (join, widen, join_at_loop_head,
join_consecutive_iter, meet, narrow) returns a state whose `region_sexpr`
and `stmt_sexpr` maps are exactly the receiver's; nothing of the other
state's auxiliary maps is merged in. -/
theorem lattice_ops_preserve_sexpr_maps {α : Type} (D : AbsDomOps α)
    (a b : ProgramState α) :
    (ProgramState.join D a b).region_sexpr = a.region_sexpr ∧
    (ProgramState.join D a b).stmt_sexpr = a.stmt_sexpr ∧
    (ProgramState.widen D a b).region_sexpr = a.region_sexpr ∧
    (ProgramState.widen D a b).stmt_sexpr = a.stmt_sexpr ∧
    (ProgramState.join_at_loop_head D a b).region_sexpr = a.region_sexpr ∧
    (ProgramState.join_at_loop_head D a b).stmt_sexpr = a.stmt_sexpr ∧
    (ProgramState.join_consecutive_iter D a b).region_sexpr = a.region_sexpr ∧
    (ProgramState.join_consecutive_iter D a b).stmt_sexpr = a.stmt_sexpr ∧
    (ProgramState.meet D a b).region_sexpr = a.region_sexpr ∧
    (ProgramState.meet D a b).stmt_sexpr = a.stmt_sexpr ∧
    (ProgramState.narrow D a b).region_sexpr = a.region_sexpr ∧
    (ProgramState.narrow D a b).stmt_sexpr = a.stmt_sexpr :=
  ⟨rfl, rfl, rfl, rfl, rfl, rfl, rfl, rfl, rfl, rfl, rfl, rfl⟩

/-! ## C2: union-style operations -/

theorem unionLoop_lookup {α : Type} (op : α → α → α) (selfMap : DomValMap α) :
    ∀ (others acc : DomValMap α) (k : DomID),
      (others.map Prod.fst).Nodup →
      lookupVal (unionLoop op selfMap others acc) k =
        match lookupVal others k with
        | some w =>
          some (match lookupVal selfMap k with
                | none => w
                | some v => op v w)
        | none => lookupVal acc k := by
  intro others
  induction others with
  | nil =>
    intro acc k _
    simp [unionLoop, lookupVal]
  | cons p rest ih =>
    obtain ⟨id, w⟩ := p
    intro acc k hb
    rw [List.map_cons, List.nodup_cons] at hb
    have hrest : lookupVal rest id = none :=
      (lookupVal_eq_none_iff rest id).mpr hb.1
    by_cases hk : id = k
    · subst hk
      cases hs : lookupVal selfMap id with
      | none =>
        simp only [unionLoop, hs]
        rw [ih (setVal acc id w) id hb.2, hrest, lookupVal_setVal]
        simp [lookupVal, hs]
      | some v =>
        simp only [unionLoop, hs]
        rw [ih (setVal acc id (op v w)) id hb.2, hrest, lookupVal_setVal]
        simp [lookupVal, hs]
    · cases hs : lookupVal selfMap id with
      | none =>
        simp only [unionLoop, hs]
        rw [ih (setVal acc id w) k hb.2]
        cases hr : lookupVal rest k with
        | none =>
          rw [lookupVal_setVal]
          simp [lookupVal, hk, hr]
        | some w' => simp [lookupVal, hk, hr]
      | some v =>
        simp only [unionLoop, hs]
        rw [ih (setVal acc id (op v w)) k hb.2]
        cases hr : lookupVal rest k with
        | none =>
          rw [lookupVal_setVal]
          simp [lookupVal, hk, hr]
        | some w' => simp [lookupVal, hk, hr]

/-- C2 counterexample: `UNION_MAP` iterates only the other state's map, so
a key present only in the receiver is dropped — `join` of a one-entry state
with an empty state yields an empty `dom_val`, while the claim requires the
result's key set to be the union (and the receiver's value kept). -/
theorem join_drops_receiver_only_key :
    lookupVal sA.dom_val 0 = some 1 ∧
      (ProgramState.join ExD sA sEmpty).dom_val = [] := by
  decide

/-- C2 amended: each union-style operation returns a state whose `dom_val`
key set is exactly the *other* state's key set: a key present only in the
other state gets a clone of the other's value, a key present in both gets
the receiver's value combined with the other's by the corresponding domain
operation, and a key present only in the receiver is dropped. The four
named operations are the `UNION_MAP` instances of their domain ops. -/
theorem union_ops_amended {α : Type} (D : AbsDomOps α) (op : α → α → α)
    (a b : ProgramState α) (hb : NodupKeys b.dom_val) (id : DomID) :
    lookupVal (UNION_MAP op a b).dom_val id =
      (match lookupVal b.dom_val id with
       | some w =>
         some (match lookupVal a.dom_val id with
               | none => w
               | some v => op v w)
       | none => none) ∧
    ProgramState.join D a b = UNION_MAP D.join_with a b ∧
    ProgramState.widen D a b = UNION_MAP D.widen_with a b ∧
    ProgramState.join_at_loop_head D a b =
      UNION_MAP D.join_with_at_loop_head a b ∧
    ProgramState.join_consecutive_iter D a b =
      UNION_MAP D.join_consecutive_iter_with a b := by
  refine ⟨?_, rfl, rfl, rfl, rfl⟩
  show lookupVal (unionLoop op a.dom_val b.dom_val []) id = _
  rw [unionLoop_lookup op a.dom_val b.dom_val [] id hb]
  cases lookupVal b.dom_val id <;> simp [lookupVal]

/-- Witness for the amended C2 theorem at concrete states. -/
theorem union_ops_amended_witness :
    NodupKeys sOne.dom_val ∧
    (lookupVal (UNION_MAP (fun a b => max a b) sA sOne).dom_val 0 =
      (match lookupVal sOne.dom_val 0 with
       | some w =>
         some (match lookupVal sA.dom_val 0 with
               | none => w
               | some v => max v w)
       | none => none) ∧
     ProgramState.join ExD sA sOne = UNION_MAP ExD.join_with sA sOne ∧
     ProgramState.widen ExD sA sOne = UNION_MAP ExD.widen_with sA sOne ∧
     ProgramState.join_at_loop_head ExD sA sOne =
       UNION_MAP ExD.join_with_at_loop_head sA sOne ∧
     ProgramState.join_consecutive_iter ExD sA sOne =
       UNION_MAP ExD.join_consecutive_iter_with sA sOne) :=
  ⟨by decide, union_ops_amended ExD (fun a b => max a b) sA sOne (by decide) 0⟩

/-! ## C1: leq -/

/-- The claimed requirement of the first `leq` loop at one receiver entry:
the id is present in the other map and `leq` holds there, or the id is
absent and the value is bottom. -/
def leqClause1 {α : Type} (D : AbsDomOps α) (bm : DomValMap α)
    (p : DomID × α) : Bool :=
  match lookupVal bm p.1 with
  | some w => D.leq p.2 w
  | none => D.is_bottom p.2

theorem leqAux_isSome_iff {α : Type} (D : AbsDomOps α) (other : DomValMap α) :
    ∀ (self : DomValMap α) (keys : List DomID) (need : Bool),
      (leqAux D other self keys need).isSome = true ↔
        ∀ p ∈ self, leqClause1 D other p = true := by
  intro self
  induction self with
  | nil =>
    intro keys need
    simp [leqAux]
  | cons p rest ih =>
    obtain ⟨id, v⟩ := p
    intro keys need
    cases hl : lookupVal other id with
    | none =>
      by_cases hb : D.is_bottom v = true
      · rw [show leqAux D other ((id, v) :: rest) keys need =
            leqAux D other rest (id :: keys) true from by
          simp [leqAux, hl, hb]]
        rw [ih (id :: keys) true]
        simp [leqClause1, hl, hb]
      · rw [show leqAux D other ((id, v) :: rest) keys need = none from by
          simp [leqAux, hl, hb]]
        simp [leqClause1, hl, hb]
    | some w =>
      by_cases hq : D.leq v w = true
      · rw [show leqAux D other ((id, v) :: rest) keys need =
            leqAux D other rest (id :: keys) need from by
          simp [leqAux, hl, hq]]
        rw [ih (id :: keys) need]
        simp [leqClause1, hl, hq]
      · rw [show leqAux D other ((id, v) :: rest) keys need = none from by
          simp [leqAux, hl, hq]]
        simp [leqClause1, hl, hq]

theorem leqAux_keys {α : Type} (D : AbsDomOps α) (other : DomValMap α) :
    ∀ (self : DomValMap α) (keys : List DomID) (need : Bool)
      (keys' : List DomID) (need' : Bool),
      leqAux D other self keys need = some (keys', need') →
      ∀ k, k ∈ keys' ↔ k ∈ self.map Prod.fst ∨ k ∈ keys := by
  intro self
  induction self with
  | nil =>
    intro keys need keys' need' h k
    simp [leqAux] at h
    rw [← h.1]
    simp
  | cons p rest ih =>
    obtain ⟨id, v⟩ := p
    intro keys need keys' need' h k
    cases hl : lookupVal other id with
    | none =>
      by_cases hb : D.is_bottom v = true
      · rw [show leqAux D other ((id, v) :: rest) keys need =
            leqAux D other rest (id :: keys) true from by
          simp [leqAux, hl, hb]] at h
        have := ih (id :: keys) true keys' need' h k
        rw [this]
        simp only [List.map_cons, List.mem_cons]
        tauto
      · rw [show leqAux D other ((id, v) :: rest) keys need = none from by
          simp [leqAux, hl, hb]] at h
        exact absurd h (by simp)
    | some w =>
      by_cases hq : D.leq v w = true
      · rw [show leqAux D other ((id, v) :: rest) keys need =
            leqAux D other rest (id :: keys) need from by
          simp [leqAux, hl, hq]] at h
        have := ih (id :: keys) need keys' need' h k
        rw [this]
        simp only [List.map_cons, List.mem_cons]
        tauto
      · rw [show leqAux D other ((id, v) :: rest) keys need = none from by
          simp [leqAux, hl, hq]] at h
        exact absurd h (by simp)

theorem leqAux_need {α : Type} (D : AbsDomOps α) (other : DomValMap α) :
    ∀ (self : DomValMap α) (keys : List DomID) (need : Bool)
      (keys' : List DomID) (need' : Bool),
      leqAux D other self keys need = some (keys', need') →
      (need' = true ↔
        (need = true ∨ ∃ p ∈ self, lookupVal other p.1 = none)) := by
  intro self
  induction self with
  | nil =>
    intro keys need keys' need' h
    simp [leqAux] at h
    rw [← h.2]
    simp
  | cons p rest ih =>
    obtain ⟨id, v⟩ := p
    intro keys need keys' need' h
    cases hl : lookupVal other id with
    | none =>
      by_cases hb : D.is_bottom v = true
      · rw [show leqAux D other ((id, v) :: rest) keys need =
            leqAux D other rest (id :: keys) true from by
          simp [leqAux, hl, hb]] at h
        have := ih (id :: keys) true keys' need' h
        rw [this]
        constructor
        · intro _
          exact Or.inr ⟨(id, v), List.mem_cons_self _ _, hl⟩
        · intro _
          exact Or.inl rfl
      · rw [show leqAux D other ((id, v) :: rest) keys need = none from by
          simp [leqAux, hl, hb]] at h
        exact absurd h (by simp)
    | some w =>
      by_cases hq : D.leq v w = true
      · rw [show leqAux D other ((id, v) :: rest) keys need =
            leqAux D other rest (id :: keys) need from by
          simp [leqAux, hl, hq]] at h
        have := ih (id :: keys) need keys' need' h
        rw [this]
        constructor
        · rintro (hn | ⟨q, hq1, hq2⟩)
          · exact Or.inl hn
          · exact Or.inr ⟨q, List.mem_cons_of_mem _ hq1, hq2⟩
        · rintro (hn | ⟨q, hq1, hq2⟩)
          · exact Or.inl hn
          · rcases List.mem_cons.mp hq1 with hq1 | hq1
            · rw [hq1] at hq2
              rw [hq2] at hl
              exact absurd hl (by simp)
            · exact Or.inr ⟨q, hq1, hq2⟩
      · rw [show leqAux D other ((id, v) :: rest) keys need = none from by
          simp [leqAux, hl, hq]] at h
        exact absurd h (by simp)

/-- C1: `a.leq(b)` returns true iff every receiver entry is either matched
in `b` with `leq` holding or absent from `b` and bottom, and every entry of
`b` whose id is absent from `a` is top. The early-exit bookkeeping
(`this_key_set`, `need_to_check_other`) is sound: when the sizes agree and
every receiver key was found, `b` can carry no extra key. Requires the
receiver's map keys to be duplicate-free, which the C++ hash map
guarantees. -/
theorem leq_iff_spec {α : Type} (D : AbsDomOps α) (a b : ProgramState α)
    (ha : NodupKeys a.dom_val) :
    ProgramState.leq D a b = true ↔
      ((∀ p ∈ a.dom_val, leqClause1 D b.dom_val p = true) ∧
       (∀ q ∈ b.dom_val, lookupVal a.dom_val q.1 = none →
          D.is_top q.2 = true)) := by
  unfold ProgramState.leq
  cases h : leqAux D b.dom_val a.dom_val []
      (decide (b.dom_val.length ≠ a.dom_val.length)) with
  | none =>
    constructor
    · intro hf
      exact absurd hf (by simp)
    · rintro ⟨h1, -⟩
      have hs : (leqAux D b.dom_val a.dom_val []
          (decide (b.dom_val.length ≠ a.dom_val.length))).isSome = true :=
        (leqAux_isSome_iff D b.dom_val a.dom_val [] _).mpr h1
      rw [h] at hs
      exact absurd hs (by simp)
  | some r =>
    obtain ⟨keys, need⟩ := r
    have hs : (leqAux D b.dom_val a.dom_val []
        (decide (b.dom_val.length ≠ a.dom_val.length))).isSome = true := by
      rw [h]; rfl
    have h1 : ∀ p ∈ a.dom_val, leqClause1 D b.dom_val p = true :=
      (leqAux_isSome_iff D b.dom_val a.dom_val [] _).mp hs
    have hkeys : ∀ k, k ∈ keys ↔ k ∈ a.dom_val.map Prod.fst := by
      intro k
      have := leqAux_keys D b.dom_val a.dom_val [] _ keys need h k
      simpa using this
    have hneed := leqAux_need D b.dom_val a.dom_val [] _ keys need h
    cases hn : need with
    | true =>
      show b.dom_val.all (fun p => decide (p.1 ∈ keys) || D.is_top p.2)
          = true ↔ _
      rw [List.all_eq_true]
      constructor
      · intro hall
        refine ⟨h1, fun q hq hnone => ?_⟩
        have := hall q hq
        rcases Bool.or_eq_true _ _ |>.mp this with hmem | htop
        · rw [decide_eq_true_eq] at hmem
          rw [hkeys] at hmem
          rw [lookupVal_eq_none_iff] at hnone
          exact absurd hmem hnone
        · exact htop
      · rintro ⟨-, h2⟩ q hq
        by_cases hm : q.1 ∈ a.dom_val.map Prod.fst
        · rw [Bool.or_eq_true, decide_eq_true_eq, hkeys]
          exact Or.inl hm
        · rw [Bool.or_eq_true]
          exact Or.inr (h2 q hq ((lookupVal_eq_none_iff _ _).mpr hm))
    | false =>
      rw [hn] at hneed
      have hcases : ¬(decide (b.dom_val.length ≠ a.dom_val.length) = true ∨
          ∃ p ∈ a.dom_val, lookupVal b.dom_val p.1 = none) := by
        intro hc
        exact Bool.false_ne_true (hneed.mpr hc)
      push_neg at hcases
      obtain ⟨hlen, hfound⟩ := hcases
      have hleneq : b.dom_val.length = a.dom_val.length := by
        simpa using hlen
      refine iff_of_true rfl ⟨h1, ?_⟩
      have hsub : ∀ k ∈ a.dom_val.map Prod.fst, k ∈ b.dom_val.map Prod.fst := by
        intro k hk
        rcases List.mem_map.mp hk with ⟨p, hp, hpk⟩
        have := hfound p hp
        rw [← hpk]
        exact (lookupVal_ne_none_iff _ _).mp this
      have hAcard : (a.dom_val.map Prod.fst).toFinset.card =
          (a.dom_val.map Prod.fst).length :=
        List.toFinset_card_of_nodup ha
      have hABsub : (a.dom_val.map Prod.fst).toFinset ⊆
          (b.dom_val.map Prod.fst).toFinset := by
        intro x hx
        rw [List.mem_toFinset] at hx ⊢
        exact hsub x hx
      have hBcard : (b.dom_val.map Prod.fst).toFinset.card ≤
          (b.dom_val.map Prod.fst).length :=
        List.toFinset_card_le (b.dom_val.map Prod.fst)
      have hABeq : (a.dom_val.map Prod.fst).toFinset =
          (b.dom_val.map Prod.fst).toFinset := by
        refine Finset.eq_of_subset_of_card_le hABsub ?_
        rw [hAcard]
        simp only [List.length_map] at hBcard ⊢
        omega
      intro q hq hnone
      exfalso
      have hqb : q.1 ∈ (b.dom_val.map Prod.fst).toFinset := by
        rw [List.mem_toFinset]
        exact List.mem_map.mpr ⟨q, hq, rfl⟩
      rw [← hABeq, List.mem_toFinset] at hqb
      rw [lookupVal_eq_none_iff] at hnone
      exact hnone hqb

/-- Witness for the C1 theorem at a concrete pair of states. -/
theorem leq_iff_spec_witness :
    NodupKeys sA.dom_val ∧
    (ProgramState.leq ExD sA sOne = true ↔
      ((∀ p ∈ sA.dom_val, leqClause1 ExD sOne.dom_val p = true) ∧
       (∀ q ∈ sOne.dom_val, lookupVal sA.dom_val q.1 = none →
          ExD.is_top q.2 = true))) :=
  ⟨by decide, leq_iff_spec ExD sA sOne (by decide)⟩

/-! ## C5: hash-consing pool -/

theorem lookupVal_of_mem {α : Type} :
    ∀ (m : DomValMap α), NodupKeys m → ∀ p : DomID × α, p ∈ m →
      lookupVal m p.1 = some p.2 := by
  intro m
  induction m with
  | nil =>
    intro _ p hp
    cases hp
  | cons q rest ih =>
    intro hm p hp
    have hm' : q.1 ∉ rest.map Prod.fst ∧ (rest.map Prod.fst).Nodup := by
      have h0 : ((q :: rest).map Prod.fst).Nodup := hm
      rw [List.map_cons, List.nodup_cons] at h0
      exact h0
    rcases List.mem_cons.mp hp with hq | hq
    · subst hq
      obtain ⟨k, v⟩ := p
      simp [lookupVal]
    · have hne : q.1 ≠ p.1 := by
        intro he
        exact hm'.1 (he ▸ List.mem_map.mpr ⟨p, hq, rfl⟩)
      obtain ⟨k, v⟩ := q
      simp only [lookupVal, if_neg hne]
      exact ih hm'.2 p hq

/-- An empty manager: empty pool, empty free list, fresh arena. -/
def mgr0 : StateManager Nat := ⟨[], [], 0⟩

/-- A manager whose pool holds `sOne` at slot 0, with slot 1 next in the
arena. -/
def mgrOne : StateManager Nat := ⟨[(0, sOne)], [], 1⟩

/-- C5 counterexample: two states produced by the manager — interning
`sEmpty` then `sOne` into an empty manager yields distinct pool slots 0 and
1 — nevertheless compare `equals` (the one-sided `equals` ignores the
second state's extra key), so `equals` does not imply a shared pool slot. -/
theorem equals_without_same_slot :
    (get_persistent_state mgr0 sEmpty).1 = 0 ∧
    (get_persistent_state (get_persistent_state mgr0 sEmpty).2 sOne).1 = 1 ∧
    ProgramState.equals ExD sEmpty sOne = true := by
  decide

/-- C5 amended: a pooled instance compares `equals` to itself (given the
domain contract's reflexivity of value equality), but `equals` of two
pooled states does not force a shared slot; interning a candidate that is
profile-equivalent to a pooled state returns that state's slot and leaves
the manager unchanged; otherwise the slot comes from the free list when it
is non-empty and from the arena when it is empty, and the candidate is
inserted into the pool. -/
theorem intern_amended_spec {α : Type} [DecidableEq α] (D : AbsDomOps α)
    (mgr : StateManager α) (s : ProgramState α) :
    (NodupKeys s.dom_val → (∀ v, D.equals v v = true) →
      ProgramState.equals D s s = true) ∧
    ((∃ p ∈ mgr.pool, stateEquiv p.2 s = true) →
      (get_persistent_state mgr s).2 = mgr ∧
      ∃ t, ((get_persistent_state mgr s).1, t) ∈ mgr.pool ∧
        stateEquiv t s = true) ∧
    ((∀ p ∈ mgr.pool, stateEquiv p.2 s = false) →
      ∀ slot rest, mgr.free_states = slot :: rest →
        (get_persistent_state mgr s).1 = slot ∧
        (get_persistent_state mgr s).2 =
          ⟨(slot, s) :: mgr.pool, rest, mgr.arena_next⟩) ∧
    ((∀ p ∈ mgr.pool, stateEquiv p.2 s = false) →
      mgr.free_states = [] →
        (get_persistent_state mgr s).1 = mgr.arena_next ∧
        (get_persistent_state mgr s).2 =
          ⟨(mgr.arena_next, s) :: mgr.pool, [], mgr.arena_next + 1⟩) := by
  refine ⟨?_, ?_, ?_, ?_⟩
  · intro hnd hrefl
    unfold ProgramState.equals
    rw [List.all_eq_true]
    intro p hp
    rw [lookupVal_of_mem s.dom_val hnd p hp]
    exact hrefl p.2
  · intro hex
    cases hf : mgr.pool.find? (fun p => stateEquiv p.2 s) with
    | none =>
      exfalso
      obtain ⟨p, hp, hpe⟩ := hex
      have := List.find?_eq_none.mp hf p hp
      exact this hpe
    | some existed =>
      have hmem : existed ∈ mgr.pool := List.mem_of_find?_eq_some hf
      have heqv : stateEquiv existed.2 s = true := by
        have h0 := List.find?_some hf
        simpa using h0
      constructor
      · simp [get_persistent_state, hf]
      · refine ⟨existed.2, ?_, heqv⟩
        have hfst : (get_persistent_state mgr s).1 = existed.1 := by
          simp [get_persistent_state, hf]
        rw [hfst]
        simpa using hmem
  · intro hnone slot rest hfree
    have hf : mgr.pool.find? (fun p => stateEquiv p.2 s) = none := by
      rw [List.find?_eq_none]
      intro p hp
      simp [hnone p hp]
    simp [get_persistent_state, hf, hfree]
  · intro hnone hfree
    have hf : mgr.pool.find? (fun p => stateEquiv p.2 s) = none := by
      rw [List.find?_eq_none]
      intro p hp
      simp [hnone p hp]
    simp [get_persistent_state, hf, hfree]

/-- Witness for the amended C5 theorem: interning an equivalent candidate
into `mgrOne` returns the pooled slot, interning an inequivalent one takes
the next arena slot, and a pooled state equals itself. -/
theorem intern_amended_spec_witness :
    ProgramState.equals ExD sOne sOne = true ∧
    ((get_persistent_state mgrOne sOne).2 = mgrOne ∧
     ∃ t, ((get_persistent_state mgrOne sOne).1, t) ∈ mgrOne.pool ∧
       stateEquiv t sOne = true) ∧
    ((get_persistent_state mgrOne sEmpty).1 = mgrOne.arena_next ∧
     (get_persistent_state mgrOne sEmpty).2 =
       ⟨(mgrOne.arena_next, sEmpty) :: mgrOne.pool, [],
         mgrOne.arena_next + 1⟩) :=
  ⟨(intern_amended_spec ExD mgrOne sOne).1 (by decide)
      (fun v => by simp [ExD]),
   (intern_amended_spec ExD mgrOne sOne).2.1 (by decide),
   (intern_amended_spec ExD mgrOne sEmpty).2.2.2 (by decide) rfl⟩

/-! ## C7: set_to_bottom / set_to_top -/

theorem mem_setVal {α : Type} :
    ∀ (m : DomValMap α) (k : DomID) (v : α) (q : DomID × α),
      q ∈ setVal m k v → q = (k, v) ∨ q ∈ m := by
  intro m
  induction m with
  | nil =>
    intro k v q hq
    simp [setVal] at hq
    exact Or.inl hq
  | cons p rest ih =>
    obtain ⟨k', v'⟩ := p
    intro k v q hq
    by_cases hk : k' = k
    · subst hk
      simp only [setVal, if_pos rfl] at hq
      rcases List.mem_cons.mp hq with h | h
      · exact Or.inl h
      · exact Or.inr (List.mem_cons_of_mem _ h)
    · simp only [setVal, if_neg hk] at hq
      rcases List.mem_cons.mp hq with h | h
      · exact Or.inr (h ▸ List.mem_cons_self _ _)
      · rcases ih k v q h with h' | h'
        · exact Or.inl h'
        · exact Or.inr (List.mem_cons_of_mem _ h')

theorem innerFold_factory {α : Type} (factory : DomID → Option α) :
    ∀ (doms : List DomID) (acc : DomValMap α),
      (∀ p ∈ acc, factory p.1 = some p.2) →
      ∀ p ∈ doms.foldl (insFactory factory) acc,
        factory p.1 = some p.2 := by
  intro doms
  induction doms with
  | nil =>
    intro acc hacc p hp
    exact hacc p hp
  | cons d rest ih =>
    intro acc hacc p hp
    rw [List.foldl_cons] at hp
    revert hp
    unfold insFactory
    cases hf : factory d with
    | none =>
      intro hp
      exact ih acc hacc p hp
    | some v =>
      intro hp
      refine ih (setVal acc d v) ?_ p hp
      intro q hq
      rcases mem_setVal acc d v q hq with h | h
      · rw [h]
        exact hf
      · exact hacc q h

theorem buildDomVal_factory {α : Type} (reg : DomainRegistry α)
    (factory : DomID → Option α) :
    ∀ p ∈ buildDomVal reg factory, factory p.1 = some p.2 := by
  unfold buildDomVal
  have hgen : ∀ (aids : List Nat) (acc : DomValMap α),
      (∀ p ∈ acc, factory p.1 = some p.2) →
      ∀ p ∈ aids.foldl
        (fun acc aid => (reg.analysis_domains aid).foldl
          (insFactory factory) acc) acc,
        factory p.1 = some p.2 := by
    intro aids
    induction aids with
    | nil =>
      intro acc hacc p hp
      exact hacc p hp
    | cons aid rest ih =>
      intro acc hacc p hp
      rw [List.foldl_cons] at hp
      exact ih _ (innerFold_factory factory _ acc hacc) p hp
  intro p hp
  exact hgen reg.required_analyses [] (by intro q hq; cases hq) p hp

/-- A registry with one required analysis owning one domain whose default
and bottom factories both produce the bottom representative 0. -/
def exReg : DomainRegistry Nat :=
  ⟨[1], fun aid => if aid = 1 then [0] else [],
    fun did => if did = 0 then some 0 else none,
    fun did => if did = 0 then some 0 else none⟩

/-- C7 counterexample: `set_to_top` delegates to `get_default_state`, whose
entries are the domains' `default_val()` values; with a default of bottom
(as the spec itself allows: "typically bottom"), the returned singleton
does not satisfy `is_top()`. -/
theorem set_to_top_not_top :
    ProgramState.is_top ExD (ProgramState.set_to_top sEmpty exReg) = false ∧
    ProgramState.is_bottom ExD (ProgramState.set_to_bottom sEmpty exReg)
      = true := by
  decide

/-- C7 amended: `set_to_bottom` returns the manager's bottom-state
singleton and `set_to_top` the default-state singleton; every entry of the
bottom (resp. default) state is produced by a registered `bottom_val`
(resp. `default_val`) factory; the bottom state satisfies `is_bottom()` iff
one of its entries is bottom (hence not when no domain is registered), and
the default state satisfies `is_top()` iff all of its entries are top —
which is not guaranteed, since defaults may be bottom. -/
theorem set_to_bottom_top_amended {α : Type} (D : AbsDomOps α)
    (s : ProgramState α) (reg : DomainRegistry α) :
    ProgramState.set_to_bottom s reg = get_bottom_state reg ∧
    ProgramState.set_to_top s reg = get_default_state reg ∧
    (∀ p ∈ (get_bottom_state reg).dom_val,
      reg.domain_bottom_fn p.1 = some p.2) ∧
    (∀ p ∈ (get_default_state reg).dom_val,
      reg.domain_default_fn p.1 = some p.2) ∧
    (ProgramState.is_bottom D (get_bottom_state reg) = true ↔
      ∃ p ∈ (get_bottom_state reg).dom_val, D.is_bottom p.2 = true) ∧
    (ProgramState.is_top D (get_default_state reg) = true ↔
      ∀ p ∈ (get_default_state reg).dom_val, D.is_top p.2 = true) := by
  refine ⟨rfl, rfl, ?_, ?_, ?_, ?_⟩
  · exact buildDomVal_factory reg reg.domain_bottom_fn
  · exact buildDomVal_factory reg reg.domain_default_fn
  · simp [ProgramState.is_bottom, List.any_eq_true]
  · simp [ProgramState.is_top, List.all_eq_true]

/-! ## C9: get_region -/

/-- A concrete region manager for the witness. -/
def exRM : RegionManager := fun d f => some (d + f)

/-- C9: `get_region` delegates to the region manager exactly when the
declaration is a `VarDecl`; for every other declaration kind it returns
absent, emitting a log line that names the unhandled kind, and does not
abort. -/
theorem get_region_spec (rm : RegionManager) (decl : DeclRef)
    (frame : Nat) :
    (decl.isVarDecl = true →
      ProgramState.get_region rm decl frame = (rm decl.name frame, [])) ∧
    (decl.isVarDecl = false →
      (ProgramState.get_region rm decl frame).1 = none ∧
      (ProgramState.get_region rm decl frame).2 =
        ["unhandled decl type: " ++ decl.kind.declKindName]) := by
  constructor
  · intro h
    simp [ProgramState.get_region, h]
  · intro h
    constructor <;> simp [ProgramState.get_region, h]

/-- Witness for C9: a variable declaration is delegated; a function
declaration yields absent plus the log line. -/
theorem get_region_spec_witness :
    (ProgramState.get_region exRM ⟨DeclKind.varDecl, 7⟩ 2 =
      (exRM 7 2, [])) ∧
    ((ProgramState.get_region exRM ⟨DeclKind.functionDecl, 3⟩ 2).1 = none ∧
     (ProgramState.get_region exRM ⟨DeclKind.functionDecl, 3⟩ 2).2 =
       ["unhandled decl type: " ++
         DeclKind.declKindName DeclKind.functionDecl]) :=
  ⟨(get_region_spec exRM ⟨DeclKind.varDecl, 7⟩ 2).1 (by decide),
   (get_region_spec exRM ⟨DeclKind.functionDecl, 3⟩ 2).2 (by decide)⟩

/-! ## C10: re-registration of an analysis kind -/

/-- A manager that already has analysis kind 5 registered, with one
callback of each flavour in its tables. -/
def exAM : AnalysisManager :=
  ⟨[5], [(5, 0)], [(5, 9)], [⟨5, 1, 2, 0⟩]⟩

/-- Callbacks that a second registration of kind 5 installs. -/
def exRegs : CallbackRegistration :=
  ⟨[(5, 3)], [(5, 4)], [⟨5, 6, 7, 1⟩]⟩

/-- C10: registering an analysis kind that is already registered emits the
warning, leaves `m_analyses` unchanged, still constructs one more analysis
instance, and appends that kind's callback registrations to the three
callback tables a second time. -/
theorem register_analysis_rereg (m : AnalysisManager) (id : Nat)
    (regs : CallbackRegistration) (h : id ∈ m.m_analyses) :
    (register_analysis m id regs).1.m_analyses = m.m_analyses ∧
    (register_analysis m id regs).2.1 = 1 ∧
    (register_analysis m id regs).2.2 =
      ["analysis is already registered."] ∧
    (register_analysis m id regs).1.m_begin_function_analyses =
      m.m_begin_function_analyses ++ regs.begin_fn ∧
    (register_analysis m id regs).1.m_end_function_analyses =
      m.m_end_function_analyses ++ regs.end_fn ∧
    (register_analysis m id regs).1.m_stmt_analyses =
      m.m_stmt_analyses ++ regs.stmt := by
  refine ⟨?_, rfl, ?_, ?_, ?_, ?_⟩ <;>
    simp [register_analysis, applyRegistration, h]

/-- Witness for C10 on a concrete manager that already holds kind 5. -/
theorem register_analysis_rereg_witness :
    (5 : Nat) ∈ exAM.m_analyses ∧
    ((register_analysis exAM 5 exRegs).1.m_analyses = exAM.m_analyses ∧
     (register_analysis exAM 5 exRegs).2.1 = 1 ∧
     (register_analysis exAM 5 exRegs).2.2 =
       ["analysis is already registered."] ∧
     (register_analysis exAM 5 exRegs).1.m_begin_function_analyses =
       exAM.m_begin_function_analyses ++ exRegs.begin_fn ∧
     (register_analysis exAM 5 exRegs).1.m_end_function_analyses =
       exAM.m_end_function_analyses ++ exRegs.end_fn ∧
     (register_analysis exAM 5 exRegs).1.m_stmt_analyses =
       exAM.m_stmt_analyses ++ exRegs.stmt) :=
  ⟨by decide, register_analysis_rereg exAM 5 exRegs (by decide)⟩

/-! ## C4: normalize mutates the receiver through shared values -/

/-- A state whose single domain value (id 0) lives in the heap cell at
address 5. -/
def sH : ProgramStateH := ⟨[(0, 5)]⟩

/-- A heap whose every cell holds the non-canonical top representative 3
(`ExD.normalize 3 = 1`). -/
def hEx : Heap Nat := fun _ => 3

/-- C4 is violated by the code: `normalize` copies the `DomValMap` of
shared pointers and then normalizes each pointed-to value in place through
a `const_cast`, so the receiver — which shares those cells — observes the
normalized values after the call. Here the receiver read 3 for domain 0
before the call and reads 1 after it; the returned state also aliases the
very same cells. -/
theorem normalize_mutates_receiver_value :
    (ProgramStateH.normalize ExD sH hEx).1 = sH ∧
    ProgramStateH.readVal sH hEx 0 = some 3 ∧
    ProgramStateH.readVal sH (ProgramStateH.normalize ExD sH hEx).2 0 =
      some 1 := by
  refine ⟨rfl, rfl, ?_⟩
  simp [ProgramStateH.normalize, normalizeHeap, ProgramStateH.readVal,
    lookupVal, ExD, Function.update, sH, hEx]

end Knight
